import Mathlib

/-!
# Verification of the `csim.c` set-associative LRU cache simulator

Shallow embedding of `src/cache_simulation/csim.c`.  Machine integers are
modelled as `Nat` (addresses are 64-bit `unsigned long long`; parsed
addresses are reduced `% 2 ^ 64`).  The `int max_lru` accumulator of
`accessData`, which starts at `-1`, is modelled as `Int`.  The cache grid
`cache_t` (array of `S` sets of `E` lines) is a `List (List CacheLine)`;
the C in-place mutations become functional updates (`List.set`).
-/

namespace CacheSim

/-- One cache line, `cache_line_t`: valid bit, tag, LRU counter
(csim.c lines 63–67). -/
structure CacheLine where
  valid : Bool
  tag : Nat
  lru_counter : Nat
deriving Repr, DecidableEq

/-- Default line handed back by total list indexing (`List.getD`) when an
index is out of range; never reached on in-range indices. -/
def dfltLine : CacheLine := ⟨false, 0, 0⟩

/-- Effect of one iteration of the loop in `updateLRU` (csim.c lines
108–113) on the line at index `i`, when line `lineIndex` is the one being
touched: every *other* valid line has its counter incremented, and the
touched line's counter is reset to 0 (unconditionally, line 113). -/
def applyLRU (lineIndex i : Nat) (l : CacheLine) : CacheLine :=
  if i = lineIndex then { l with lru_counter := 0 }
  else if l.valid then { l with lru_counter := l.lru_counter + 1 }
  else l

/-- The loop of `updateLRU`, walking the set with running index `i`. -/
def updateLRUAux (lineIndex : Nat) : Nat → List CacheLine → List CacheLine
  | _, [] => []
  | i, l :: rest => applyLRU lineIndex i l :: updateLRUAux lineIndex (i + 1) rest

/-- `updateLRU(setIndex, lineIndex)` (csim.c lines 107–114), restricted to
the one set it touches. -/
def updateLRU (set : List CacheLine) (lineIndex : Nat) : List CacheLine :=
  updateLRUAux lineIndex 0 set

/-- Result of the scan loop of `accessData` (csim.c lines 132–146):
either a hit at some line index (the loop `break`s there), or a miss
carrying the final `empty_index` (`none` encodes the C sentinel `-1`)
and the final `lru_index`. -/
inductive ScanOutcome where
  | hit (index : Nat)
  | miss (empty_index : Option Nat) (lru_index : Nat)
deriving Repr, DecidableEq

/-- The scan loop of `accessData` (csim.c lines 132–146).  Arguments after
the set are the running loop index `i` and the accumulators
`empty_index`, `lru_index`, `max_lru` (initial values `-1`, `0`, `-1`). -/
def scanAux (tag : Nat) : List CacheLine → Nat → Option Nat → Nat → Int → ScanOutcome
  | [], _, empty_index, lru_index, _ => .miss empty_index lru_index
  | l :: rest, i, empty_index, lru_index, max_lru =>
    if l.valid then
      if l.tag = tag then .hit i
      else if (l.lru_counter : Int) > max_lru then
        scanAux tag rest (i + 1) empty_index i (l.lru_counter : Int)
      else
        scanAux tag rest (i + 1) empty_index lru_index max_lru
    else
      match empty_index with
      | none => scanAux tag rest (i + 1) (some i) lru_index max_lru
      | some e => scanAux tag rest (i + 1) (some e) lru_index max_lru

/-- The scan of one set with the initial accumulator values of
`accessData` (csim.c lines 127–129): `empty_index = -1`, `lru_index = 0`,
`max_lru = -1`. -/
def scanSet (tag : Nat) (set : List CacheLine) : ScanOutcome :=
  scanAux tag set 0 none 0 (-1)

/-- The victim-tracking part of the scan in isolation: the running
`(lru_index, max_lru)` pair folded over the remaining lines exactly as in
csim.c lines 139–142 (`else if (lru_counter > max_lru)`). -/
def selGo : List CacheLine → Nat → Nat → Int → Nat × Int
  | [], _, lru_index, max_lru => (lru_index, max_lru)
  | l :: rest, i, lru_index, max_lru =>
    if (l.lru_counter : Int) > max_lru then selGo rest (i + 1) i (l.lru_counter : Int)
    else selGo rest (i + 1) lru_index max_lru

/-- In-place update of the line at one index of a set (the C writes
`cache[setIndex][idx].field = ...`). -/
def modifyLine : List CacheLine → Nat → (CacheLine → CacheLine) → List CacheLine
  | [], _, _ => []
  | l :: rest, 0, f => f l :: rest
  | l :: rest, n + 1, f => l :: modifyLine rest n f

/-- The mutable simulation state: the cache grid plus the three global
counters `hit_count`, `miss_count`, `eviction_count` (csim.c lines 49–51,
73). -/
structure SimState where
  cache : List (List CacheLine)
  hit_count : Nat
  miss_count : Nat
  eviction_count : Nat
deriving Repr, DecidableEq

/-- `tag = addr >> (s + b)` (csim.c line 123). -/
def tagOf (s b addr : Nat) : Nat := addr >>> (s + b)

/-- `setIndex = (addr >> b) & ((1 << s) - 1)` (csim.c line 124), as the
total idealization used by the rest of the development: the mask is
taken to be `2 ^ s - 1`.  This coincides with the C computation whenever
the latter is defined (`s ≤ 30`, see `setIndexMaskC`); the program is
only ever run with small `s`. -/
def setIndexOf (s b addr : Nat) : Nat := (addr >>> b) &&& (2 ^ s - 1)

/-- The mask `(1 << s) - 1` of csim.c line 124 computed as C does, in
32-bit signed `int` arithmetic.  `1 << s` is well defined only for
`s ≤ 30` (at `s = 31` the shift overflows `int`; at `s ≥ 32` the shift
count reaches the width of `int`), and there its value is `2 ^ s`, so the
mask is `2 ^ s - 1` (which also keeps the stored `int setIndex` in
range).  Outside that range the C computation has no defined value,
modelled as `none`. -/
def setIndexMaskC (s : Nat) : Option Nat :=
  if s ≤ 30 then some (2 ^ s - 1) else none

/-- The shift `addr >> (s + b)` of csim.c line 123 computed as C does on
the 64-bit `unsigned long long` `addr`: defined only for a shift count
`s + b ≤ 63` (a shift by the full width 64 is undefined), modelled as
`none` outside that range. -/
def tagC (s b addr : Nat) : Option Nat :=
  if s + b ≤ 63 then some (addr >>> (s + b)) else none

/-- The set `cache[setIndex]` that an access to `addr` operates on. -/
def targetSet (s b : Nat) (st : SimState) (addr : Nat) : List CacheLine :=
  st.cache.getD (setIndexOf s b addr) []

/-- `accessData(addr)` (csim.c lines 122–161): decode, scan the target
set, then on a hit bump `hit_count` and touch the hit line; on a miss with
a free line place the tag there (valid := 1); otherwise evict the tracked
LRU line (overwrite its tag in place, valid unchanged) and bump
`eviction_count`.  The verbose `printf` block (lines 163–175) has no
effect on state and is not modelled. -/
def accessData (s b : Nat) (st : SimState) (addr : Nat) : SimState :=
  match scanSet (tagOf s b addr) (targetSet s b st addr) with
  | .hit i =>
    { st with
      cache := st.cache.set (setIndexOf s b addr)
        (updateLRU (targetSet s b st addr) i)
      hit_count := st.hit_count + 1 }
  | .miss (some e) _ =>
    { st with
      cache := st.cache.set (setIndexOf s b addr)
        (updateLRU (modifyLine (targetSet s b st addr) e
          (fun l => { l with valid := true, tag := tagOf s b addr })) e)
      miss_count := st.miss_count + 1 }
  | .miss none r =>
    { st with
      cache := st.cache.set (setIndexOf s b addr)
        (updateLRU (modifyLine (targetSet s b st addr) r
          (fun l => { l with tag := tagOf s b addr })) r)
      miss_count := st.miss_count + 1
      eviction_count := st.eviction_count + 1 }

/-- `initCache()` (csim.c lines 81–92): `S` sets of `E` lines, all fields
zero. -/
def initCache (S E : Nat) : List (List CacheLine) :=
  List.replicate S (List.replicate E dfltLine)

/-- The state right after `initCache()`: fresh cache, all counters 0. -/
def initState (S E : Nat) : SimState := ⟨initCache S E, 0, 0, 0⟩

/-- A sequence of `accessData` calls. -/
def accessSeq (s b : Nat) (st : SimState) (addrs : List Nat) : SimState :=
  addrs.foldl (accessData s b) st

/-- `buf[1]`, the operation character of a trace line (csim.c line 191).
Index 1 of the raw line; a missing character is the NUL terminator that
`fgets` leaves there, encoded `Char.ofNat 0`. -/
def opCharOf (line : String) : Char := line.toList.getD 1 (Char.ofNat 0)

/-- Hexadecimal digit test, as accepted by `sscanf %llx`. -/
def isHexDig (c : Char) : Bool :=
  c.isDigit || ('a' ≤ c && c ≤ 'f') || ('A' ≤ c && c ≤ 'F')

/-- Value of one hexadecimal digit. -/
def hexVal (c : Char) : Nat :=
  if c.isDigit then c.toNat - '0'.toNat
  else if 'a' ≤ c && c ≤ 'f' then c.toNat - 'a'.toNat + 10
  else c.toNat - 'A'.toNat + 10

/-- Accumulate the leading run of hex digits. -/
def parseHexRun : List Char → Nat → Nat
  | [], acc => acc
  | c :: rest, acc => if isHexDig c then parseHexRun rest (acc * 16 + hexVal c) else acc

/-- The first conversion of `sscanf(buf + 3, "%llx,%u", &addr, &len)`
(csim.c line 192): skip leading blanks, then require at least one hex
digit; on success the value is stored into the 64-bit `addr` (hence
`% 2 ^ 64`), on failure `addr` is left untouched (`none`).  The optional
`0x` prefix and sign accepted by `%llx` are not exercised by any claim
and are not modelled.  `len` is parsed but never used by the simulation,
so it is not modelled. -/
def parseAddr (line : String) : Option Nat :=
  let cs := (line.toList.drop 3).dropWhile fun c => c = ' ' || c = '\t'
  match cs with
  | [] => none
  | c :: _ => if isHexDig c then some (parseHexRun cs 0 % 2 ^ 64) else none

/-- One iteration of the `fgets` loop of `replayTrace` (csim.c lines
190–198).  The pair carries the simulation state and the current value of
the C variable `addr`, which persists across iterations (it is declared
once, line 186, initialised to 0) — when `sscanf` fails the access is
still performed, with the stale value. -/
def replayStep (s b : Nat) (st : SimState × Nat) (line : String) : SimState × Nat :=
  let c := opCharOf line
  if c = 'S' ∨ c = 'L' ∨ c = 'M' then
    let addr := (parseAddr line).getD st.2
    let st1 := accessData s b st.1 addr
    let st2 := if c = 'M' then accessData s b st1 addr else st1
    (st2, addr)
  else st

/-- `replayTrace` (csim.c lines 184–200) over an already-split list of
trace lines, starting from state `st0` with `addr = 0`. -/
def replayTrace (s b : Nat) (st0 : SimState) (lines : List String) : SimState :=
  (lines.foldl (replayStep s b) (st0, 0)).1

/-- The configuration check of `main` (csim.c line 252):
`s == 0 || E == 0 || b == 0 || trace_file == NULL` makes the program
print usage and `exit(1)` before `initCache` runs.  Arguments are `Int`
because they come from `atoi`, which can return negative values. -/
def configRejected (s E b : Int) (trace_file : Option String) : Bool :=
  s == 0 || E == 0 || b == 0 || trace_file == none

/-- Number of `accessData` calls one trace line causes in the code:
lines whose `buf[1]` is `S`/`L` cause one, `M` causes two, anything else
none (csim.c lines 191–196) — independent of whether the address parses. -/
def codeRecordWeight (line : String) : Nat :=
  if opCharOf line = 'S' ∨ opCharOf line = 'L' ∨ opCharOf line = 'M' then
    if opCharOf line = 'M' then 2 else 1
  else 0

/-- Modelled from the spec: the record accounting of §4.4/§7, under which
a *malformed* record — one whose operation character is outside
`{I, L, S, M}` or an `L/S/M` record whose address fails to parse —
contributes zero accesses, a well-formed Load/Store contributes one and a
well-formed Modify two. -/
def specRecordWeight (line : String) : Nat :=
  if (opCharOf line = 'L' ∨ opCharOf line = 'S') ∧ (parseAddr line).isSome then 1
  else if opCharOf line = 'M' ∧ (parseAddr line).isSome then 2
  else 0

/-- Data-model invariant (spec §3): within one set no two valid lines
share a tag. -/
def NoDupTags (set : List CacheLine) : Prop :=
  ∀ i j, i < j → j < set.length →
    (set.getD i dfltLine).valid = true → (set.getD j dfltLine).valid = true →
    (set.getD i dfltLine).tag ≠ (set.getD j dfltLine).tag

/-! ## List indexing helpers -/

theorem listGetD_set_self {α : Type} (l : List α) (i : Nat) (a d : α) (h : i < l.length) :
    (l.set i a).getD i d = a := by
  simp [List.getD_eq_getElem?_getD, List.getElem?_set_self h]

theorem listGetD_set_ne {α : Type} (l : List α) {i j : Nat} (a d : α) (h : i ≠ j) :
    (l.set i a).getD j d = l.getD j d := by
  simp [List.getD_eq_getElem?_getD, List.getElem?_set_ne h]

theorem listGetD_oor {α : Type} (l : List α) (i : Nat) (d : α) (h : l.length ≤ i) :
    l.getD i d = d := by
  simp [List.getD_eq_getElem?_getD, List.getElem?_eq_none h]

theorem listGetD_lt_length {α : Type} (l : List α) (i : Nat) (d : α) (h : l.getD i d ≠ d) :
    i < l.length := by
  by_contra hc
  exact h (listGetD_oor l i d (Nat.le_of_not_lt hc))

theorem listGetD_lt {α : Type} (l : List α) (n : Nat) (d : α) (h : n < l.length) :
    l.getD n d = l.get ⟨n, h⟩ := by
  simp [List.getD_eq_getElem?_getD, List.getElem?_eq_getElem h]

theorem listGetD_eq_getElem {α : Type} (l : List α) (n : Nat) (d : α) (h : n < l.length) :
    l.getD n d = l[n] := by
  simp [List.getD_eq_getElem?_getD, List.getElem?_eq_getElem h]

theorem listGetD_mem {α : Type} (l : List α) (n : Nat) (d : α) (h : n < l.length) :
    l.getD n d ∈ l := by
  rw [listGetD_lt l n d h]
  exact List.get_mem l n h

/-! ## `applyLRU` / `updateLRU` characterization -/

theorem applyLRU_valid (li i : Nat) (l : CacheLine) : (applyLRU li i l).valid = l.valid := by
  unfold applyLRU
  split
  · rfl
  · split <;> rfl

theorem applyLRU_tag (li i : Nat) (l : CacheLine) : (applyLRU li i l).tag = l.tag := by
  unfold applyLRU
  split
  · rfl
  · split <;> rfl

theorem applyLRU_counter_self (li : Nat) (l : CacheLine) :
    (applyLRU li li l).lru_counter = 0 := by
  simp [applyLRU]

theorem applyLRU_counter_valid (li i : Nat) (l : CacheLine) (h : i ≠ li)
    (hv : l.valid = true) : (applyLRU li i l).lru_counter = l.lru_counter + 1 := by
  simp [applyLRU, h, hv]

theorem applyLRU_counter_invalid (li i : Nat) (l : CacheLine) (h : i ≠ li)
    (hv : l.valid = false) : (applyLRU li i l).lru_counter = l.lru_counter := by
  simp [applyLRU, h, hv]

theorem updateLRUAux_length (li : Nat) :
    ∀ (i : Nat) (set : List CacheLine), (updateLRUAux li i set).length = set.length
  | _, [] => rfl
  | i, l :: rest => by
      simp [updateLRUAux, updateLRUAux_length li (i + 1) rest]

theorem updateLRUAux_getD (li : Nat) :
    ∀ (set : List CacheLine) (i k : Nat), k < set.length →
      (updateLRUAux li i set).getD k dfltLine = applyLRU li (i + k) (set.getD k dfltLine)
  | [], _, k, h => absurd h (Nat.not_lt_zero k)
  | l :: rest, i, 0, _ => by simp [updateLRUAux]
  | l :: rest, i, k + 1, h => by
      have hk : k < rest.length := Nat.lt_of_succ_lt_succ h
      simp only [updateLRUAux, List.getD_cons_succ]
      rw [updateLRUAux_getD li rest (i + 1) k hk, show i + 1 + k = i + (k + 1) by omega]

theorem updateLRU_length (set : List CacheLine) (li : Nat) :
    (updateLRU set li).length = set.length :=
  updateLRUAux_length li 0 set

theorem updateLRU_getD (set : List CacheLine) (li k : Nat) (h : k < set.length) :
    (updateLRU set li).getD k dfltLine = applyLRU li k (set.getD k dfltLine) := by
  have := updateLRUAux_getD li set 0 k h
  simpa using this

/-! ## `modifyLine` characterization -/

theorem modifyLine_length :
    ∀ (set : List CacheLine) (n : Nat) (f : CacheLine → CacheLine),
      (modifyLine set n f).length = set.length
  | [], _, _ => rfl
  | _ :: _, 0, _ => rfl
  | l :: rest, n + 1, f => by simp [modifyLine, modifyLine_length rest n f]

theorem modifyLine_getD_self :
    ∀ (set : List CacheLine) (n : Nat) (f : CacheLine → CacheLine), n < set.length →
      (modifyLine set n f).getD n dfltLine = f (set.getD n dfltLine)
  | [], n, _, h => absurd h (Nat.not_lt_zero n)
  | _ :: _, 0, _, _ => rfl
  | l :: rest, n + 1, f, h => by
      have := modifyLine_getD_self rest n f (Nat.lt_of_succ_lt_succ h)
      simpa [modifyLine] using this

theorem modifyLine_getD_ne :
    ∀ (set : List CacheLine) (n : Nat) (f : CacheLine → CacheLine) (k : Nat), k ≠ n →
      (modifyLine set n f).getD k dfltLine = set.getD k dfltLine
  | [], _, _, _, _ => rfl
  | _ :: _, 0, _, 0, h => absurd rfl h
  | _ :: _, 0, _, _ + 1, _ => rfl
  | _ :: _, _ + 1, _, 0, _ => rfl
  | l :: rest, n + 1, f, k + 1, h => by
      have := modifyLine_getD_ne rest n f k (fun hc => h (by rw [hc]))
      simpa [modifyLine] using this

theorem modifyLine_oor :
    ∀ (set : List CacheLine) (n : Nat) (f : CacheLine → CacheLine), set.length ≤ n →
      modifyLine set n f = set
  | [], _, _, _ => rfl
  | l :: rest, 0, f, h => absurd h (by simp)
  | l :: rest, n + 1, f, h => by
      simp [modifyLine, modifyLine_oor rest n f (Nat.le_of_succ_le_succ h)]

/-! ## Scan-loop characterization -/

theorem scanAux_hit_of_exists (tag : Nat) (lines : List CacheLine) :
    ∀ (i : Nat) (e : Option Nat) (li : Nat) (ml : Int),
      (∃ l ∈ lines, l.valid = true ∧ l.tag = tag) →
      ∃ j, scanAux tag lines i e li ml = .hit j := by
  induction lines with
  | nil =>
    rintro i e li ml ⟨l, hl, -⟩
    exact absurd hl (List.not_mem_nil l)
  | cons hd rest ih =>
    rintro i e li ml ⟨l, hl, hv, ht⟩
    by_cases hval : hd.valid
    · by_cases htag : hd.tag = tag
      · exact ⟨i, by simp [scanAux, hval, htag]⟩
      · have hrest : ∃ l ∈ rest, l.valid = true ∧ l.tag = tag := by
          rcases List.mem_cons.mp hl with rfl | hmem
          · exact absurd ht htag
          · exact ⟨l, hmem, hv, ht⟩
        by_cases hlru : (hd.lru_counter : Int) > ml
        · obtain ⟨j, hj⟩ := ih (i + 1) e i (hd.lru_counter : Int) hrest
          exact ⟨j, by simp [scanAux, hval, htag, hlru, hj]⟩
        · obtain ⟨j, hj⟩ := ih (i + 1) e li ml hrest
          exact ⟨j, by simp [scanAux, hval, htag, hlru, hj]⟩
    · have hrest : ∃ l ∈ rest, l.valid = true ∧ l.tag = tag := by
        rcases List.mem_cons.mp hl with rfl | hmem
        · rw [hv] at hval
          exact absurd rfl hval
        · exact ⟨l, hmem, hv, ht⟩
      cases e with
      | none =>
        obtain ⟨j, hj⟩ := ih (i + 1) (some i) li ml hrest
        exact ⟨j, by simp [scanAux, hval, hj]⟩
      | some x =>
        obtain ⟨j, hj⟩ := ih (i + 1) (some x) li ml hrest
        exact ⟨j, by simp [scanAux, hval, hj]⟩

theorem scanAux_miss_no_match (tag : Nat) (lines : List CacheLine) (i : Nat)
    (e : Option Nat) (li : Nat) (ml : Int) (e' : Option Nat) (r : Nat)
    (h : scanAux tag lines i e li ml = .miss e' r) :
    ∀ l ∈ lines, l.valid = true → l.tag ≠ tag := by
  intro l hl hv ht
  obtain ⟨j, hj⟩ := scanAux_hit_of_exists tag lines i e li ml ⟨l, hl, hv, ht⟩
  rw [h] at hj
  simp at hj

theorem scanAux_hit_match (tag : Nat) (lines : List CacheLine) :
    ∀ (i : Nat) (e : Option Nat) (li : Nat) (ml : Int) (j : Nat),
      scanAux tag lines i e li ml = .hit j →
      ∃ l ∈ lines, l.valid = true ∧ l.tag = tag := by
  induction lines with
  | nil => intro i e li ml j h; simp [scanAux] at h
  | cons hd rest ih =>
    intro i e li ml j h
    by_cases hval : hd.valid
    · by_cases htag : hd.tag = tag
      · exact ⟨hd, by simp, hval, htag⟩
      · by_cases hlru : (hd.lru_counter : Int) > ml
        · simp only [scanAux, if_pos hval, if_neg htag, if_pos hlru] at h
          obtain ⟨l, hl, hp⟩ := ih (i + 1) e i (hd.lru_counter : Int) j h
          exact ⟨l, by simp [hl], hp⟩
        · simp only [scanAux, if_pos hval, if_neg htag, if_neg hlru] at h
          obtain ⟨l, hl, hp⟩ := ih (i + 1) e li ml j h
          exact ⟨l, by simp [hl], hp⟩
    · cases e with
      | none =>
        simp only [scanAux, if_neg hval] at h
        obtain ⟨l, hl, hp⟩ := ih (i + 1) (some i) li ml j h
        exact ⟨l, by simp [hl], hp⟩
      | some x =>
        simp only [scanAux, if_neg hval] at h
        obtain ⟨l, hl, hp⟩ := ih (i + 1) (some x) li ml j h
        exact ⟨l, by simp [hl], hp⟩

theorem scanAux_some (tag : Nat) (lines : List CacheLine) :
    ∀ (i x li : Nat) (ml : Int),
      (∃ j, scanAux tag lines i (some x) li ml = .hit j) ∨
      (∃ r, scanAux tag lines i (some x) li ml = .miss (some x) r) := by
  induction lines with
  | nil => intro i x li ml; exact Or.inr ⟨li, rfl⟩
  | cons hd rest ih =>
    intro i x li ml
    by_cases hval : hd.valid
    · by_cases htag : hd.tag = tag
      · exact Or.inl ⟨i, by simp [scanAux, hval, htag]⟩
      · by_cases hlru : (hd.lru_counter : Int) > ml
        · simpa [scanAux, hval, htag, hlru] using ih (i + 1) x i (hd.lru_counter : Int)
        · simpa [scanAux, hval, htag, hlru] using ih (i + 1) x li ml
    · simpa [scanAux, hval] using ih (i + 1) x li ml

theorem scanAux_none_all_valid (tag : Nat) (lines : List CacheLine) :
    ∀ (i li : Nat) (ml : Int) (r : Nat),
      scanAux tag lines i none li ml = .miss none r →
      ∀ l ∈ lines, l.valid = true := by
  induction lines with
  | nil => intro i li ml r _ l hl; exact absurd hl (List.not_mem_nil l)
  | cons hd rest ih =>
    intro i li ml r h l hl
    by_cases hval : hd.valid
    · rcases List.mem_cons.mp hl with rfl | hmem
      · exact hval
      · by_cases htag : hd.tag = tag
        · simp [scanAux, hval, htag] at h
        · by_cases hlru : (hd.lru_counter : Int) > ml
          · simp only [scanAux, if_pos hval, if_neg htag, if_pos hlru] at h
            exact ih (i + 1) i (hd.lru_counter : Int) r h l hmem
          · simp only [scanAux, if_pos hval, if_neg htag, if_neg hlru] at h
            exact ih (i + 1) li ml r h l hmem
    · exfalso
      simp only [scanAux, if_neg hval] at h
      rcases scanAux_some tag rest (i + 1) i li ml with ⟨j, hj⟩ | ⟨r', hr'⟩
      · rw [hj] at h
        simp at h
      · rw [hr'] at h
        simp at h

theorem scanAux_empty_range (tag : Nat) (lines : List CacheLine) :
    ∀ (i li : Nat) (ml : Int) (e r : Nat),
      scanAux tag lines i none li ml = .miss (some e) r →
      ∃ k, k < lines.length ∧ e = i + k ∧ (lines.getD k dfltLine).valid = false := by
  induction lines with
  | nil => intro i li ml e r h; simp [scanAux] at h
  | cons hd rest ih =>
    intro i li ml e r h
    by_cases hval : hd.valid
    · by_cases htag : hd.tag = tag
      · simp [scanAux, hval, htag] at h
      · by_cases hlru : (hd.lru_counter : Int) > ml
        · simp only [scanAux, if_pos hval, if_neg htag, if_pos hlru] at h
          obtain ⟨k, hk, he, hv⟩ := ih (i + 1) i (hd.lru_counter : Int) e r h
          exact ⟨k + 1, by simpa using hk, by omega, by simpa using hv⟩
        · simp only [scanAux, if_pos hval, if_neg htag, if_neg hlru] at h
          obtain ⟨k, hk, he, hv⟩ := ih (i + 1) li ml e r h
          exact ⟨k + 1, by simpa using hk, by omega, by simpa using hv⟩
    · simp only [scanAux, if_neg hval] at h
      rcases scanAux_some tag rest (i + 1) i li ml with ⟨j, hj⟩ | ⟨r', hr'⟩
      · rw [hj] at h
        simp at h
      · rw [hr'] at h
        simp only [ScanOutcome.miss.injEq, Option.some.injEq] at h
        refine ⟨0, by simp, by omega, ?_⟩
        simp only [List.getD_cons_zero]
        simpa using hval

theorem scanAux_eq_selGo (tag : Nat) (lines : List CacheLine)
    (hval : ∀ l ∈ lines, l.valid = true) (hmiss : ∀ l ∈ lines, l.tag ≠ tag) :
    ∀ (i li : Nat) (ml : Int),
      scanAux tag lines i none li ml = .miss none (selGo lines i li ml).1 := by
  induction lines with
  | nil => intro i li ml; rfl
  | cons hd rest ih =>
    intro i li ml
    have hv : hd.valid = true := hval hd (by simp)
    have ht : hd.tag ≠ tag := hmiss hd (by simp)
    have hvr : ∀ l ∈ rest, l.valid = true := fun l hl => hval l (by simp [hl])
    have hmr : ∀ l ∈ rest, l.tag ≠ tag := fun l hl => hmiss l (by simp [hl])
    by_cases hlru : (hd.lru_counter : Int) > ml
    · simp [scanAux, selGo, hv, ht, hlru, ih hvr hmr]
    · simp [scanAux, selGo, hv, ht, hlru, ih hvr hmr]

theorem selGo_char (lines : List CacheLine) :
    ∀ (i li : Nat) (ml : Int),
      ((selGo lines i li ml).1 = li ∧
        ∀ k, k < lines.length → ((lines.getD k dfltLine).lru_counter : Int) ≤ ml) ∨
      (∃ j, j < lines.length ∧ (selGo lines i li ml).1 = i + j ∧
        ml < ((lines.getD j dfltLine).lru_counter : Int) ∧
        (∀ k, k < lines.length →
          (lines.getD k dfltLine).lru_counter ≤ (lines.getD j dfltLine).lru_counter) ∧
        (∀ k, k < j →
          (lines.getD k dfltLine).lru_counter < (lines.getD j dfltLine).lru_counter)) := by
  induction lines with
  | nil =>
    intro i li ml
    exact Or.inl ⟨rfl, fun k hk => absurd hk (Nat.not_lt_zero k)⟩
  | cons hd rest ih =>
    intro i li ml
    by_cases hlru : (hd.lru_counter : Int) > ml
    · have hsel : selGo (hd :: rest) i li ml = selGo rest (i + 1) i (hd.lru_counter : Int) := by
        simp [selGo, hlru]
      rcases ih (i + 1) i (hd.lru_counter : Int) with ⟨h1, h2⟩ | ⟨j, hj, h1, h2, h3, h4⟩
      · refine Or.inr ⟨0, by simp, ?_, by simpa using hlru, ?_, ?_⟩
        · rw [hsel, h1]
          omega
        · intro k hk
          cases k with
          | zero => simp
          | succ k' =>
            have := h2 k' (by simpa using hk)
            simp only [List.getD_cons_succ, List.getD_cons_zero]
            exact_mod_cast this
        · intro k hk
          exact absurd hk (Nat.not_lt_zero k)
      · refine Or.inr ⟨j + 1, by simpa using hj, ?_, ?_, ?_, ?_⟩
        · rw [hsel, h1]
          omega
        · simp only [List.getD_cons_succ]
          exact lt_trans hlru h2
        · intro k hk
          cases k with
          | zero =>
            simp only [List.getD_cons_zero, List.getD_cons_succ]
            exact_mod_cast le_of_lt h2
          | succ k' =>
            simp only [List.getD_cons_succ]
            exact h3 k' (by simpa using hk)
        · intro k hk
          cases k with
          | zero =>
            simp only [List.getD_cons_zero, List.getD_cons_succ]
            exact_mod_cast h2
          | succ k' =>
            simp only [List.getD_cons_succ]
            exact h4 k' (by omega)
    · have hsel : selGo (hd :: rest) i li ml = selGo rest (i + 1) li ml := by
        simp [selGo, hlru]
      have hle : (hd.lru_counter : Int) ≤ ml := le_of_not_lt hlru
      rcases ih (i + 1) li ml with ⟨h1, h2⟩ | ⟨j, hj, h1, h2, h3, h4⟩
      · refine Or.inl ⟨by rw [hsel, h1], ?_⟩
        intro k hk
        cases k with
        | zero => simpa using hle
        | succ k' =>
          simp only [List.getD_cons_succ]
          exact h2 k' (by simpa using hk)
      · refine Or.inr ⟨j + 1, by simpa using hj, ?_, ?_, ?_, ?_⟩
        · rw [hsel, h1]
          omega
        · simpa using h2
        · intro k hk
          cases k with
          | zero =>
            have hcast : (hd.lru_counter : Int) < ((rest.getD j dfltLine).lru_counter : Int) :=
              lt_of_le_of_lt hle h2
            simp only [List.getD_cons_zero, List.getD_cons_succ]
            exact_mod_cast le_of_lt hcast
          | succ k' =>
            simp only [List.getD_cons_succ]
            exact h3 k' (by simpa using hk)
        · intro k hk
          cases k with
          | zero =>
            have hcast : (hd.lru_counter : Int) < ((rest.getD j dfltLine).lru_counter : Int) :=
              lt_of_le_of_lt hle h2
            simp only [List.getD_cons_zero, List.getD_cons_succ]
            exact_mod_cast hcast
          | succ k' =>
            simp only [List.getD_cons_succ]
            exact h4 k' (by omega)

/-! ## `scanSet` wrappers -/

theorem scanSet_hit_match (tag : Nat) (lines : List CacheLine) (j : Nat)
    (h : scanSet tag lines = .hit j) :
    ∃ l ∈ lines, l.valid = true ∧ l.tag = tag :=
  scanAux_hit_match tag lines 0 none 0 (-1) j h

theorem scanSet_miss_no_match (tag : Nat) (lines : List CacheLine) (e : Option Nat)
    (r : Nat) (h : scanSet tag lines = .miss e r) :
    ∀ l ∈ lines, l.valid = true → l.tag ≠ tag :=
  scanAux_miss_no_match tag lines 0 none 0 (-1) e r h

theorem scanSet_none_all_valid (tag : Nat) (lines : List CacheLine) (r : Nat)
    (h : scanSet tag lines = .miss none r) :
    ∀ l ∈ lines, l.valid = true :=
  scanAux_none_all_valid tag lines 0 0 (-1) r h

theorem scanSet_empty_range (tag : Nat) (lines : List CacheLine) (e r : Nat)
    (h : scanSet tag lines = .miss (some e) r) :
    e < lines.length ∧ (lines.getD e dfltLine).valid = false := by
  obtain ⟨k, hk, he, hv⟩ := scanAux_empty_range tag lines 0 0 (-1) e r h
  rw [Nat.zero_add] at he
  subst he
  exact ⟨hk, hv⟩

theorem scanSet_evict_range (tag : Nat) (lines : List CacheLine) (r : Nat)
    (hne : lines ≠ []) (h : scanSet tag lines = .miss none r) :
    r < lines.length := by
  have hval := scanSet_none_all_valid tag lines r h
  have hm := scanSet_miss_no_match tag lines none r h
  have hm' : ∀ l ∈ lines, l.tag ≠ tag := fun l hl => hm l hl (hval l hl)
  have hsel := scanAux_eq_selGo tag lines hval hm' 0 0 (-1)
  have hr : r = (selGo lines 0 0 (-1)).1 := by
    rw [show scanAux tag lines 0 none 0 (-1) = scanSet tag lines from rfl, h] at hsel
    exact (ScanOutcome.miss.injEq _ _ _ _).mp hsel |>.2
  rcases selGo_char lines 0 0 (-1) with ⟨h1, -⟩ | ⟨j, hj, h1, -, -, -⟩
  · rw [hr, h1]
    exact List.length_pos.mpr hne
  · rw [hr, h1]
    omega

/-! ## `accessData` branch equations -/

theorem accessData_hit_cache (s b : Nat) (st : SimState) (addr j : Nat)
    (h : scanSet (tagOf s b addr) (targetSet s b st addr) = .hit j) :
    (accessData s b st addr).cache
        = st.cache.set (setIndexOf s b addr) (updateLRU (targetSet s b st addr) j) ∧
      (accessData s b st addr).hit_count = st.hit_count + 1 ∧
      (accessData s b st addr).miss_count = st.miss_count ∧
      (accessData s b st addr).eviction_count = st.eviction_count := by
  unfold accessData
  rw [h]
  exact ⟨rfl, rfl, rfl, rfl⟩

theorem accessData_place_cache (s b : Nat) (st : SimState) (addr e r : Nat)
    (h : scanSet (tagOf s b addr) (targetSet s b st addr) = .miss (some e) r) :
    (accessData s b st addr).cache
        = st.cache.set (setIndexOf s b addr)
            (updateLRU (modifyLine (targetSet s b st addr) e
              (fun l => { l with valid := true, tag := tagOf s b addr })) e) ∧
      (accessData s b st addr).hit_count = st.hit_count ∧
      (accessData s b st addr).miss_count = st.miss_count + 1 ∧
      (accessData s b st addr).eviction_count = st.eviction_count := by
  unfold accessData
  rw [h]
  exact ⟨rfl, rfl, rfl, rfl⟩

theorem accessData_evict_cache (s b : Nat) (st : SimState) (addr r : Nat)
    (h : scanSet (tagOf s b addr) (targetSet s b st addr) = .miss none r) :
    (accessData s b st addr).cache
        = st.cache.set (setIndexOf s b addr)
            (updateLRU (modifyLine (targetSet s b st addr) r
              (fun l => { l with tag := tagOf s b addr })) r) ∧
      (accessData s b st addr).hit_count = st.hit_count ∧
      (accessData s b st addr).miss_count = st.miss_count + 1 ∧
      (accessData s b st addr).eviction_count = st.eviction_count + 1 := by
  unfold accessData
  rw [h]
  exact ⟨rfl, rfl, rfl, rfl⟩

theorem accessData_counts (s b : Nat) (st : SimState) (addr : Nat) :
    ((accessData s b st addr).hit_count = st.hit_count + 1 ∧
      (accessData s b st addr).miss_count = st.miss_count ∧
      (accessData s b st addr).eviction_count = st.eviction_count) ∨
    ((accessData s b st addr).hit_count = st.hit_count ∧
      (accessData s b st addr).miss_count = st.miss_count + 1 ∧
      ((accessData s b st addr).eviction_count = st.eviction_count ∨
        (accessData s b st addr).eviction_count = st.eviction_count + 1)) := by
  rcases hscan : scanSet (tagOf s b addr) (targetSet s b st addr) with j | ⟨(_ | e), r⟩
  · obtain ⟨-, h1, h2, h3⟩ := accessData_hit_cache s b st addr j hscan
    exact Or.inl ⟨h1, h2, h3⟩
  · obtain ⟨-, h1, h2, h3⟩ := accessData_evict_cache s b st addr r hscan
    exact Or.inr ⟨h1, h2, Or.inr h3⟩
  · obtain ⟨-, h1, h2, h3⟩ := accessData_place_cache s b st addr e r hscan
    exact Or.inr ⟨h1, h2, Or.inl h3⟩

theorem accessData_one (s b : Nat) (st : SimState) (addr : Nat) :
    (accessData s b st addr).hit_count + (accessData s b st addr).miss_count
      = st.hit_count + st.miss_count + 1 := by
  rcases accessData_counts s b st addr with ⟨h1, h2, -⟩ | ⟨h1, h2, -⟩ <;> omega

/-- After any access, the target set of the accessed address holds a valid
line with the accessed tag (the heart of the "second access hits"
property). -/
theorem accessData_hits_tag (s b : Nat) (st : SimState) (addr : Nat)
    (hne : targetSet s b st addr ≠ []) :
    ∃ k, k < (targetSet s b (accessData s b st addr) addr).length ∧
      ((targetSet s b (accessData s b st addr) addr).getD k dfltLine).valid = true ∧
      ((targetSet s b (accessData s b st addr) addr).getD k dfltLine).tag
        = tagOf s b addr := by
  have hidx : setIndexOf s b addr < st.cache.length := by
    apply listGetD_lt_length
    unfold targetSet at hne
    exact hne
  rcases hscan : scanSet (tagOf s b addr) (targetSet s b st addr) with j | ⟨(_ | e), r⟩
  · obtain ⟨hc, -, -, -⟩ := accessData_hit_cache s b st addr j hscan
    have hT : targetSet s b (accessData s b st addr) addr
        = updateLRU (targetSet s b st addr) j := by
      unfold targetSet
      rw [hc]
      exact listGetD_set_self _ _ _ _ hidx
    obtain ⟨l, hl, hv, ht⟩ := scanSet_hit_match _ _ _ hscan
    obtain ⟨n, hn, rfl⟩ := List.mem_iff_getElem.mp hl
    refine ⟨n, ?_, ?_, ?_⟩
    · rw [hT, updateLRU_length]
      exact hn
    · rw [hT, updateLRU_getD _ _ _ hn, applyLRU_valid, listGetD_lt _ _ _ hn]
      exact hv
    · rw [hT, updateLRU_getD _ _ _ hn, applyLRU_tag, listGetD_lt _ _ _ hn]
      exact ht
  · obtain ⟨hc, -, -, -⟩ := accessData_evict_cache s b st addr r hscan
    have hvalid := scanSet_none_all_valid _ _ _ hscan
    have hr : r < (targetSet s b st addr).length :=
      scanSet_evict_range _ _ _ hne hscan
    have hT : targetSet s b (accessData s b st addr) addr
        = updateLRU (modifyLine (targetSet s b st addr) r
            (fun l => { l with tag := tagOf s b addr })) r := by
      unfold targetSet
      rw [hc]
      exact listGetD_set_self _ _ _ _ hidx
    have hr' : r < (modifyLine (targetSet s b st addr) r
        (fun l => { l with tag := tagOf s b addr })).length := by
      rw [modifyLine_length]
      exact hr
    refine ⟨r, ?_, ?_, ?_⟩
    · rw [hT, updateLRU_length]
      exact hr'
    · rw [hT, updateLRU_getD _ _ _ hr', applyLRU_valid,
        modifyLine_getD_self _ _ _ hr]
      have := hvalid _ (listGetD_mem (targetSet s b st addr) r dfltLine hr)
      simpa using this
    · rw [hT, updateLRU_getD _ _ _ hr', applyLRU_tag,
        modifyLine_getD_self _ _ _ hr]
  · obtain ⟨hc, -, -, -⟩ := accessData_place_cache s b st addr e r hscan
    obtain ⟨he, -⟩ := scanSet_empty_range _ _ _ _ hscan
    have hT : targetSet s b (accessData s b st addr) addr
        = updateLRU (modifyLine (targetSet s b st addr) e
            (fun l => { l with valid := true, tag := tagOf s b addr })) e := by
      unfold targetSet
      rw [hc]
      exact listGetD_set_self _ _ _ _ hidx
    have he' : e < (modifyLine (targetSet s b st addr) e
        (fun l => { l with valid := true, tag := tagOf s b addr })).length := by
      rw [modifyLine_length]
      exact he
    refine ⟨e, ?_, ?_, ?_⟩
    · rw [hT, updateLRU_length]
      exact he'
    · rw [hT, updateLRU_getD _ _ _ he', applyLRU_valid,
        modifyLine_getD_self _ _ _ he]
    · rw [hT, updateLRU_getD _ _ _ he', applyLRU_tag,
        modifyLine_getD_self _ _ _ he]

/-! ## Preservation of the no-duplicate-tags invariant -/

theorem noDupTags_of_pointwise (A B : List CacheLine) (hlen : A.length = B.length)
    (hpt : ∀ k, k < B.length →
      (A.getD k dfltLine).valid = (B.getD k dfltLine).valid ∧
      (A.getD k dfltLine).tag = (B.getD k dfltLine).tag)
    (hB : NoDupTags B) : NoDupTags A := by
  intro i j hij hj hvi hvj
  have hjB : j < B.length := by rw [← hlen]; exact hj
  have hiB : i < B.length := lt_trans hij hjB
  obtain ⟨hv1, ht1⟩ := hpt i hiB
  obtain ⟨hv2, ht2⟩ := hpt j hjB
  rw [hv1] at hvi
  rw [hv2] at hvj
  rw [ht1, ht2]
  exact hB i j hij hjB hvi hvj

theorem noDupTags_updateLRU (set : List CacheLine) (li : Nat) (h : NoDupTags set) :
    NoDupTags (updateLRU set li) := by
  refine noDupTags_of_pointwise _ set (updateLRU_length set li) ?_ h
  intro k hk
  rw [updateLRU_getD set li k hk]
  exact ⟨applyLRU_valid li k _, applyLRU_tag li k _⟩

theorem noDupTags_modify (set : List CacheLine) (tag : Nat) (e : Nat)
    (f : CacheLine → CacheLine) (hf : ∀ l, (f l).tag = tag)
    (hnd : NoDupTags set)
    (hnm : ∀ k, k < set.length → (set.getD k dfltLine).valid = true →
      (set.getD k dfltLine).tag ≠ tag) :
    NoDupTags (modifyLine set e f) := by
  intro i j hij hj hvi hvj
  have hjlen : j < set.length := by
    rw [← modifyLine_length set e f]
    exact hj
  have hilen : i < set.length := lt_trans hij hjlen
  by_cases hie : i = e
  · subst hie
    have hjne : j ≠ i := Nat.ne_of_gt hij
    rw [modifyLine_getD_self set i f hilen, modifyLine_getD_ne set i f j hjne, hf]
    rw [modifyLine_getD_ne set i f j hjne] at hvj
    exact (hnm j hjlen hvj).symm
  · by_cases hje : j = e
    · subst hje
      rw [modifyLine_getD_self set j f hjlen, modifyLine_getD_ne set j f i hie, hf]
      rw [modifyLine_getD_ne set j f i hie] at hvi
      exact hnm i hilen hvi
    · rw [modifyLine_getD_ne set e f i hie, modifyLine_getD_ne set e f j hje]
      rw [modifyLine_getD_ne set e f i hie] at hvi
      rw [modifyLine_getD_ne set e f j hje] at hvj
      exact hnd i j hij hjlen hvi hvj

theorem accessData_noDup (s b : Nat) (st : SimState) (addr : Nat)
    (h : ∀ i, NoDupTags (st.cache.getD i [])) :
    ∀ i, NoDupTags ((accessData s b st addr).cache.getD i []) := by
  intro i
  suffices hX : ∃ X, (accessData s b st addr).cache
      = st.cache.set (setIndexOf s b addr) X ∧ NoDupTags X by
    obtain ⟨X, hc, hXnd⟩ := hX
    rw [hc]
    by_cases hi : i = setIndexOf s b addr
    · rw [hi]
      by_cases hrange : setIndexOf s b addr < st.cache.length
      · rw [listGetD_set_self st.cache _ X [] hrange]
        exact hXnd
      · rw [List.set_eq_of_length_le (Nat.le_of_not_lt hrange)]
        exact h (setIndexOf s b addr)
    · rw [listGetD_set_ne st.cache X [] (fun hc' => hi hc'.symm)]
      exact h i
  have hnd : NoDupTags (targetSet s b st addr) := h (setIndexOf s b addr)
  rcases hscan : scanSet (tagOf s b addr) (targetSet s b st addr) with j | ⟨(_ | e), r⟩
  · obtain ⟨hc, -, -, -⟩ := accessData_hit_cache s b st addr j hscan
    exact ⟨_, hc, noDupTags_updateLRU _ j hnd⟩
  · obtain ⟨hc, -, -, -⟩ := accessData_evict_cache s b st addr r hscan
    have hnm0 := scanSet_miss_no_match _ _ _ _ hscan
    have hnm : ∀ k, k < (targetSet s b st addr).length →
        ((targetSet s b st addr).getD k dfltLine).valid = true →
        ((targetSet s b st addr).getD k dfltLine).tag ≠ tagOf s b addr :=
      fun k hk hv => hnm0 _ (listGetD_mem _ k dfltLine hk) hv
    exact ⟨_, hc, noDupTags_updateLRU _ r
      (noDupTags_modify _ _ r _ (fun l => rfl) hnd hnm)⟩
  · obtain ⟨hc, -, -, -⟩ := accessData_place_cache s b st addr e r hscan
    have hnm0 := scanSet_miss_no_match _ _ _ _ hscan
    have hnm : ∀ k, k < (targetSet s b st addr).length →
        ((targetSet s b st addr).getD k dfltLine).valid = true →
        ((targetSet s b st addr).getD k dfltLine).tag ≠ tagOf s b addr :=
      fun k hk hv => hnm0 _ (listGetD_mem _ k dfltLine hk) hv
    exact ⟨_, hc, noDupTags_updateLRU _ e
      (noDupTags_modify _ _ e _ (fun l => rfl) hnd hnm)⟩

theorem accessSeq_noDup (s b : Nat) (addrs : List Nat) :
    ∀ (st : SimState), (∀ i, NoDupTags (st.cache.getD i [])) →
      ∀ i, NoDupTags ((accessSeq s b st addrs).cache.getD i []) := by
  induction addrs with
  | nil => intro st h i; exact h i
  | cons a rest ih =>
    intro st h i
    exact ih (accessData s b st a) (accessData_noDup s b st a h) i

theorem initState_noDup (S E : Nat) :
    ∀ i, NoDupTags ((initState S E).cache.getD i []) := by
  intro i i' j hij hj hvi hvj
  exfalso
  have hline : ((initState S E).cache.getD i []).getD i' dfltLine = dfltLine := by
    by_cases hi : i < S
    · have hset : (initState S E).cache.getD i [] = List.replicate E dfltLine := by
        simp [initState, initCache, List.getD_eq_getElem?_getD, List.getElem?_replicate, hi]
      rw [hset]
      by_cases hi' : i' < E
      · simp [List.getD_eq_getElem?_getD, List.getElem?_replicate, hi']
      · exact listGetD_oor _ _ _ (by simpa using Nat.le_of_not_lt hi')
    · have hset : (initState S E).cache.getD i [] = [] := by
        simp [initState, initCache, List.getD_eq_getElem?_getD, List.getElem?_replicate, hi]
      rw [hset]
      rfl
  rw [hline] at hvi
  simp [dfltLine] at hvi

/-! ## Replay accounting -/

theorem replay_counts (s b : Nat) (lines : List String) :
    ∀ (st : SimState) (a0 : Nat),
      (lines.foldl (replayStep s b) (st, a0)).1.hit_count
          + (lines.foldl (replayStep s b) (st, a0)).1.miss_count
        = st.hit_count + st.miss_count + (lines.map codeRecordWeight).sum := by
  induction lines with
  | nil => intro st a0; simp
  | cons line rest ih =>
    intro st a0
    rw [List.foldl_cons, List.map_cons, List.sum_cons]
    by_cases hC : opCharOf line = 'S' ∨ opCharOf line = 'L' ∨ opCharOf line = 'M'
    · by_cases hM : opCharOf line = 'M'
      · have hstep : replayStep s b (st, a0) line =
            (accessData s b (accessData s b st ((parseAddr line).getD a0))
              ((parseAddr line).getD a0), (parseAddr line).getD a0) := by
          simp only [replayStep]
          rw [if_pos hC, if_pos hM]
        have hw : codeRecordWeight line = 2 := by
          simp only [codeRecordWeight]
          rw [if_pos hC, if_pos hM]
        rw [hstep, hw]
        have h1 := accessData_one s b st ((parseAddr line).getD a0)
        have h2 := accessData_one s b (accessData s b st ((parseAddr line).getD a0))
          ((parseAddr line).getD a0)
        have hih := ih (accessData s b (accessData s b st ((parseAddr line).getD a0))
          ((parseAddr line).getD a0)) ((parseAddr line).getD a0)
        omega
      · have hstep : replayStep s b (st, a0) line =
            (accessData s b st ((parseAddr line).getD a0), (parseAddr line).getD a0) := by
          simp only [replayStep]
          rw [if_pos hC, if_neg hM]
        have hw : codeRecordWeight line = 1 := by
          simp only [codeRecordWeight]
          rw [if_pos hC, if_neg hM]
        rw [hstep, hw]
        have h1 := accessData_one s b st ((parseAddr line).getD a0)
        have hih := ih (accessData s b st ((parseAddr line).getD a0))
          ((parseAddr line).getD a0)
        omega
    · have hstep : replayStep s b (st, a0) line = (st, a0) := by
        simp only [replayStep]
        rw [if_neg hC]
      have hw : codeRecordWeight line = 0 := by
        simp only [codeRecordWeight]
        rw [if_neg hC]
      rw [hstep, hw]
      have hih := ih st a0
      omega

/-! ## Claim theorems -/

/-- C1: on a miss in a set with no invalid line, the victim is chosen by
scanning in index order with a strictly-greater comparison on the recency
counter, so the victim is the earliest-indexed line among those sharing
the maximum counter: the scan returns `.miss none r` where every counter
is at most counter `r` and every earlier line's counter is strictly
smaller; `accessData` then evicts exactly that line `r`. -/
theorem lru_victim_tiebreak (s b : Nat) (st : SimState) (addr : Nat)
    (hne : targetSet s b st addr ≠ [])
    (hval : ∀ k, k < (targetSet s b st addr).length →
      ((targetSet s b st addr).getD k dfltLine).valid = true)
    (hmiss : ∀ k, k < (targetSet s b st addr).length →
      ((targetSet s b st addr).getD k dfltLine).tag ≠ tagOf s b addr) :
    ∃ r, r < (targetSet s b st addr).length ∧
      scanSet (tagOf s b addr) (targetSet s b st addr) = ScanOutcome.miss none r ∧
      (∀ k, k < (targetSet s b st addr).length →
        ((targetSet s b st addr).getD k dfltLine).lru_counter
          ≤ ((targetSet s b st addr).getD r dfltLine).lru_counter) ∧
      (∀ k, k < r →
        ((targetSet s b st addr).getD k dfltLine).lru_counter
          < ((targetSet s b st addr).getD r dfltLine).lru_counter) ∧
      (accessData s b st addr).eviction_count = st.eviction_count + 1 ∧
      (accessData s b st addr).cache
        = st.cache.set (setIndexOf s b addr)
            (updateLRU (modifyLine (targetSet s b st addr) r
              (fun l => { l with tag := tagOf s b addr })) r) := by
  have hvalm : ∀ l ∈ targetSet s b st addr, l.valid = true := by
    intro l hl
    obtain ⟨n, hn, rfl⟩ := List.mem_iff_getElem.mp hl
    have h2 := hval n hn
    rwa [listGetD_eq_getElem _ _ _ hn] at h2
  have hmissm : ∀ l ∈ targetSet s b st addr, l.tag ≠ tagOf s b addr := by
    intro l hl
    obtain ⟨n, hn, rfl⟩ := List.mem_iff_getElem.mp hl
    have h2 := hmiss n hn
    rwa [listGetD_eq_getElem _ _ _ hn] at h2
  have hscan := scanAux_eq_selGo (tagOf s b addr) (targetSet s b st addr)
    hvalm hmissm 0 0 (-1)
  rcases selGo_char (targetSet s b st addr) 0 0 (-1) with ⟨h1, h2⟩ | ⟨j, hj, h1, h2, h3, h4⟩
  · exfalso
    have h0 : 0 < (targetSet s b st addr).length := List.length_pos.mpr hne
    have := h2 0 h0
    omega
  · rw [Nat.zero_add] at h1
    have hscan' : scanSet (tagOf s b addr) (targetSet s b st addr)
        = ScanOutcome.miss none j := by
      rw [h1] at hscan
      exact hscan
    obtain ⟨hc, -, -, hev⟩ := accessData_evict_cache s b st addr j hscan'
    exact ⟨j, hj, hscan', h3, h4, hev, hc⟩

/-- C1 witness: a set with two valid lines of equal recency counter 3 and
tags 5 and 7; an access with tag 9 must evict, and the victim is the line
at index 0. -/
theorem lru_victim_tiebreak_witness :
    (accessData 0 0 (SimState.mk [[CacheLine.mk true 5 3, CacheLine.mk true 7 3]] 0 0 0)
        9).eviction_count = 0 + 1 ∧
      scanSet 9 [CacheLine.mk true 5 3, CacheLine.mk true 7 3] = ScanOutcome.miss none 0 := by
  constructor
  · obtain ⟨r, -, -, -, -, hev, -⟩ :=
      lru_victim_tiebreak 0 0
        (SimState.mk [[CacheLine.mk true 5 3, CacheLine.mk true 7 3]] 0 0 0) 9
        (by decide) (by decide) (by decide)
    exact hev
  · decide

/-- C2 counterexample: the claim quantifies over every `s, b` with
`s + b` within the 64-bit address width, but at `s = 32, b = 0` (and
already at `s = 31`) — parameters inside that range — the mask
computation `(1 << s) - 1` of csim.c line 124 has no defined value in
`int` arithmetic, so the program does not compute
`setIndex = (addr >> b) mod 2^s` there; likewise at `s + b = 64` the
`u64` shift of line 123 is undefined. -/
theorem address_decode_counterexample :
    (32 + 0 ≤ 64 ∧ setIndexMaskC 32 = none) ∧
    (31 + 0 ≤ 64 ∧ setIndexMaskC 31 = none) ∧
    (32 + 32 ≤ 64 ∧ tagC 32 32 0 = none) := by
  decide

/-- C2 amended: on the range where the C computations of csim.c lines
123–124 are defined — `s ≤ 30` for the `int` mask `(1 << s) - 1` and
`s + b ≤ 63` for the `u64` shift — the decode is exactly
`setIndex = (addr >> b) mod 2^s` and `tag = addr >> (s + b)`, with no
side effects (`tagC`, `setIndexMaskC`, `tagOf`, `setIndexOf` are pure
functions of `(s, b, addr)`); and the total models `setIndexOf`/`tagOf`
used by the rest of the development coincide with the guarded
computations there. -/
theorem address_decode_amended (s b addr : Nat) (hs : s ≤ 30) (hsb : s + b ≤ 63) :
    ∃ m, setIndexMaskC s = some m ∧
      (addr >>> b) &&& m = addr / 2 ^ b % 2 ^ s ∧
      setIndexOf s b addr = (addr >>> b) &&& m ∧
      tagC s b addr = some (addr / 2 ^ (s + b)) ∧
      tagOf s b addr = addr / 2 ^ (s + b) := by
  refine ⟨2 ^ s - 1, ?_, ?_, rfl, ?_, ?_⟩
  · simp [setIndexMaskC, hs]
  · simp [Nat.and_pow_two_sub_one_eq_mod, Nat.shiftRight_eq_div_pow]
  · simp [tagC, hsb, Nat.shiftRight_eq_div_pow]
  · simp [tagOf, Nat.shiftRight_eq_div_pow]

/-- C2 witness: decoding address `0x1234` with `s = 4`, `b = 4`, which
lies in the defined range. -/
theorem address_decode_amended_witness :
    ∃ m, setIndexMaskC 4 = some m ∧
      (4660 >>> 4) &&& m = 4660 / 2 ^ 4 % 2 ^ 4 ∧
      setIndexOf 4 4 4660 = (4660 >>> 4) &&& m ∧
      tagC 4 4 4660 = some (4660 / 2 ^ (4 + 4)) ∧
      tagOf 4 4 4660 = 4660 / 2 ^ (4 + 4) :=
  address_decode_amended 4 4 4660 (by decide) (by decide)

/-- C3: `updateLRU` acts on the whole set: every valid line other than
the touched one has its recency counter incremented by exactly 1, every
invalid other line is unchanged, the touched line's counter is set to 0
regardless of its valid bit, and no valid bit or tag changes. -/
theorem touch_recency_update (set : List CacheLine) (lineIndex : Nat)
    (h : lineIndex < set.length) :
    (updateLRU set lineIndex).length = set.length ∧
    ((updateLRU set lineIndex).getD lineIndex dfltLine).lru_counter = 0 ∧
    ∀ k, k < set.length →
      ((updateLRU set lineIndex).getD k dfltLine).valid = (set.getD k dfltLine).valid ∧
      ((updateLRU set lineIndex).getD k dfltLine).tag = (set.getD k dfltLine).tag ∧
      (k ≠ lineIndex → (set.getD k dfltLine).valid = true →
        ((updateLRU set lineIndex).getD k dfltLine).lru_counter
          = (set.getD k dfltLine).lru_counter + 1) ∧
      (k ≠ lineIndex → (set.getD k dfltLine).valid = false →
        ((updateLRU set lineIndex).getD k dfltLine).lru_counter
          = (set.getD k dfltLine).lru_counter) := by
  refine ⟨updateLRU_length set lineIndex, ?_, ?_⟩
  · rw [updateLRU_getD set lineIndex lineIndex h, applyLRU_counter_self]
  · intro k hk
    refine ⟨?_, ?_, ?_, ?_⟩
    · rw [updateLRU_getD set lineIndex k hk, applyLRU_valid]
    · rw [updateLRU_getD set lineIndex k hk, applyLRU_tag]
    · intro hne hv
      rw [updateLRU_getD set lineIndex k hk, applyLRU_counter_valid lineIndex k _ hne hv]
    · intro hne hv
      rw [updateLRU_getD set lineIndex k hk, applyLRU_counter_invalid lineIndex k _ hne hv]

/-- C3 witness: touching line 0 of a three-line set bumps the valid line
at index 2 from counter 2 to 3. -/
theorem touch_recency_update_witness :
    ((updateLRU [CacheLine.mk true 3 1, CacheLine.mk false 4 5, CacheLine.mk true 9 2]
        0).getD 2 dfltLine).lru_counter
      = (([CacheLine.mk true 3 1, CacheLine.mk false 4 5,
          CacheLine.mk true 9 2].getD 2 dfltLine)).lru_counter + 1 :=
  ((touch_recency_update
      [CacheLine.mk true 3 1, CacheLine.mk false 4 5, CacheLine.mk true 9 2] 0
      (by decide)).2.2 2 (by decide)).2.2.1 (by decide) (by decide)

/-- C4: if the target set is nonempty (in the program `E ≥ 1` always
holds), accessing the same address twice in a row makes the second call a
hit with no eviction; the first call is either a hit (no counter change
besides `hit_count`) or a miss with at most one eviction; and replaying a
Modify record performs exactly two `accessData` calls at the same
address. -/
theorem immediate_reaccess_hits (s b : Nat) (st : SimState) (addr : Nat)
    (hne : targetSet s b st addr ≠ []) :
    ((accessData s b (accessData s b st addr) addr).hit_count
        = (accessData s b st addr).hit_count + 1 ∧
      (accessData s b (accessData s b st addr) addr).miss_count
        = (accessData s b st addr).miss_count ∧
      (accessData s b (accessData s b st addr) addr).eviction_count
        = (accessData s b st addr).eviction_count) ∧
    (((accessData s b st addr).hit_count = st.hit_count + 1 ∧
        (accessData s b st addr).miss_count = st.miss_count ∧
        (accessData s b st addr).eviction_count = st.eviction_count) ∨
      ((accessData s b st addr).hit_count = st.hit_count ∧
        (accessData s b st addr).miss_count = st.miss_count + 1 ∧
        (accessData s b st addr).eviction_count ≤ st.eviction_count + 1)) ∧
    (∀ (line : String) (st' : SimState) (a0 : Nat), opCharOf line = 'M' →
      replayStep s b (st', a0) line
        = (accessData s b (accessData s b st' ((parseAddr line).getD a0))
            ((parseAddr line).getD a0), (parseAddr line).getD a0)) := by
  refine ⟨?_, ?_, ?_⟩
  · obtain ⟨k, hk, hkv, hkt⟩ := accessData_hits_tag s b st addr hne
    have hmem : ∃ l ∈ targetSet s b (accessData s b st addr) addr,
        l.valid = true ∧ l.tag = tagOf s b addr :=
      ⟨(targetSet s b (accessData s b st addr) addr).getD k dfltLine,
        listGetD_mem _ k dfltLine hk, hkv, hkt⟩
    obtain ⟨j, hj⟩ := scanAux_hit_of_exists (tagOf s b addr)
      (targetSet s b (accessData s b st addr) addr) 0 none 0 (-1) hmem
    obtain ⟨-, hh, hm, he⟩ := accessData_hit_cache s b (accessData s b st addr) addr j hj
    exact ⟨hh, hm, he⟩
  · rcases accessData_counts s b st addr with ⟨h1, h2, h3⟩ | ⟨h1, h2, h3⟩
    · exact Or.inl ⟨h1, h2, h3⟩
    · refine Or.inr ⟨h1, h2, ?_⟩
      rcases h3 with h | h <;> omega
  · intro line st' a0 hM
    have hC : opCharOf line = 'S' ∨ opCharOf line = 'L' ∨ opCharOf line = 'M' :=
      Or.inr (Or.inr hM)
    simp only [replayStep]
    rw [if_pos hC, if_pos hM]

/-- C4 witness: a cold access to address 0 with `s = 1, b = 0, E = 1`
followed by an immediate re-access; the second access is a hit. -/
theorem immediate_reaccess_hits_witness :
    (accessData 1 0 (accessData 1 0 (initState 2 1) 0) 0).hit_count
      = (accessData 1 0 (initState 2 1) 0).hit_count + 1 :=
  ((immediate_reaccess_hits 1 0 (initState 2 1) 0 (by decide)).1).1

/-- C5 counterexample: the record `" L zz,1"` is an `L` record whose
address fails to parse, so under the claim it is malformed and must
contribute zero to `hits + misses`; but replaying it from the empty cache
gives `hits + misses = 1`, while the spec-side accounting predicts 0. -/
theorem accounting_identity_counterexample :
    opCharOf " L zz,1" = 'L' ∧ parseAddr " L zz,1" = none ∧
    (replayTrace 1 0 (initState 2 1) [" L zz,1"]).hit_count
        + (replayTrace 1 0 (initState 2 1) [" L zz,1"]).miss_count = 1 ∧
    ([" L zz,1"].map specRecordWeight).sum = 0 := by
  decide

/-- C5 amended: for any trace, `hits + misses` equals the number of
records whose operation character is `L` or `S` plus twice the number
whose operation character is `M`, *regardless of whether their address
parses* — an `L/S/M` record with an unparsable address still performs its
access(es), so only records whose operation character is outside
`{L, S, M}` (which includes every `I` record) contribute zero. -/
theorem accounting_identity_amended (s b : Nat) (st0 : SimState) (lines : List String) :
    (replayTrace s b st0 lines).hit_count + (replayTrace s b st0 lines).miss_count
      = st0.hit_count + st0.miss_count + (lines.map codeRecordWeight).sum := by
  unfold replayTrace
  exact replay_counts s b lines st0 0

/-- C6: starting from the all-invalid initial cache, after any sequence
of accesses no set holds two valid lines with the same tag. -/
theorem no_duplicate_tags_invariant (s b S E : Nat) (addrs : List Nat) (i : Nat) :
    NoDupTags ((accessSeq s b (initState S E) addrs).cache.getD i []) :=
  accessSeq_noDup s b addrs (initState S E) (initState_noDup S E) i

/-- C7 counterexample: `" L zz,1"` is an `L` record whose address fails
to parse; the claim says it is skipped with counters unaffected, but the
code still calls `accessData` with the stale address variable (initially
0), so replaying it alone yields `miss_count = 1`, not 0. -/
theorem malformed_record_counterexample :
    opCharOf " L zz,1" = 'L' ∧ parseAddr " L zz,1" = none ∧
    (replayTrace 1 0 (initState 2 1) [" L zz,1"]).miss_count = 1 := by
  decide

/-- C7 amended: a record whose operation character (the character at
index 1 of the raw line) is outside `{L, S, M}` — which covers `I`
records and unrecognized kinds — is skipped with state and counters
untouched; but an `L/S/M` record whose address fails to parse is *not*
skipped: the access(es) are performed with the most recently parsed
address (initially 0). -/
theorem malformed_record_amended (s b a0 : Nat) (st : SimState) (line : String) :
    (opCharOf line ≠ 'S' → opCharOf line ≠ 'L' → opCharOf line ≠ 'M' →
      replayStep s b (st, a0) line = (st, a0)) ∧
    ((opCharOf line = 'S' ∨ opCharOf line = 'L') → parseAddr line = none →
      replayStep s b (st, a0) line = (accessData s b st a0, a0)) ∧
    (opCharOf line = 'M' → parseAddr line = none →
      replayStep s b (st, a0) line
        = (accessData s b (accessData s b st a0) a0, a0)) := by
  refine ⟨?_, ?_, ?_⟩
  · intro h1 h2 h3
    have hC : ¬(opCharOf line = 'S' ∨ opCharOf line = 'L' ∨ opCharOf line = 'M') := by
      rintro (h | h | h)
      · exact h1 h
      · exact h2 h
      · exact h3 h
    simp only [replayStep]
    rw [if_neg hC]
  · intro hSL hp
    have hC : opCharOf line = 'S' ∨ opCharOf line = 'L' ∨ opCharOf line = 'M' := by
      rcases hSL with h | h
      · exact Or.inl h
      · exact Or.inr (Or.inl h)
    have hM : ¬(opCharOf line = 'M') := by
      rcases hSL with h | h <;> rw [h] <;> decide
    simp only [replayStep]
    rw [if_pos hC, if_neg hM, hp]
    rfl
  · intro hM hp
    have hC : opCharOf line = 'S' ∨ opCharOf line = 'L' ∨ opCharOf line = 'M' :=
      Or.inr (Or.inr hM)
    simp only [replayStep]
    rw [if_pos hC, if_pos hM, hp]
    rfl

/-- C7 witness: the record `" X 5,1"` has operation character `X`, so it
is skipped and leaves state and counters untouched. -/
theorem malformed_record_amended_witness :
    replayStep 1 0 (initState 2 1, 0) " X 5,1" = (initState 2 1, 0) :=
  (malformed_record_amended 1 0 0 (initState 2 1) " X 5,1").1
    (by decide) (by decide) (by decide)

/-- C8 counterexample: the configuration check of `main` accepts
`s = -1` (with `E = 1`, `b = 1` and a trace file present), although the
claim requires every configuration with `s < 0` to be refused. -/
theorem config_validation_counterexample :
    ((-1 : Int) < 0) ∧ configRejected (-1) 1 1 (some "t") = false := by
  decide

/-- C8 amended: the check of `main` rejects a configuration exactly when
`s = 0`, `E = 0`, `b = 0`, or the trace file is missing; negative values
of `s`, `b`, or `E` are *not* rejected and reach the simulation. -/
theorem config_validation_amended (s E b : Int) (f : Option String) :
    configRejected s E b f = true ↔ (s = 0 ∨ E = 0 ∨ b = 0 ∨ f = none) := by
  simp [configRejected, or_assoc]

/-- C9: with `s = 1, b = 0, E = 1`, the trace `L 0,1 / L 2,1 / L 4,1`
parses to addresses 0, 2, 4, which all decode to set index 0 with
distinct tags 0, 1, 2, and replay produces `hits = 0`, `misses = 3`,
`evictions = 2`. -/
theorem end_to_end_example :
    parseAddr " L 0,1" = some 0 ∧ parseAddr " L 2,1" = some 2 ∧
    parseAddr " L 4,1" = some 4 ∧
    setIndexOf 1 0 0 = 0 ∧ setIndexOf 1 0 2 = 0 ∧ setIndexOf 1 0 4 = 0 ∧
    tagOf 1 0 0 = 0 ∧ tagOf 1 0 2 = 1 ∧ tagOf 1 0 4 = 2 ∧
    (replayTrace 1 0 (initState 2 1) [" L 0,1", " L 2,1", " L 4,1"]).hit_count = 0 ∧
    (replayTrace 1 0 (initState 2 1) [" L 0,1", " L 2,1", " L 4,1"]).miss_count = 3 ∧
    (replayTrace 1 0 (initState 2 1) [" L 0,1", " L 2,1", " L 4,1"]).eviction_count = 2 := by
  decide

/-- C10: one `accessData` call mutates at most the set selected by the
decoded set index: every other set of the cache is left exactly
unchanged, and the number of sets is unchanged. -/
theorem access_frame_effect (s b : Nat) (st : SimState) (addr j : Nat)
    (hj : j ≠ setIndexOf s b addr) :
    (accessData s b st addr).cache.getD j [] = st.cache.getD j [] ∧
    (accessData s b st addr).cache.length = st.cache.length := by
  rcases hscan : scanSet (tagOf s b addr) (targetSet s b st addr) with i | ⟨(_ | e), r⟩
  · obtain ⟨hc, -, -, -⟩ := accessData_hit_cache s b st addr i hscan
    rw [hc]
    exact ⟨listGetD_set_ne _ _ _ (fun hc' => hj hc'.symm), List.length_set _ _ _⟩
  · obtain ⟨hc, -, -, -⟩ := accessData_evict_cache s b st addr r hscan
    rw [hc]
    exact ⟨listGetD_set_ne _ _ _ (fun hc' => hj hc'.symm), List.length_set _ _ _⟩
  · obtain ⟨hc, -, -, -⟩ := accessData_place_cache s b st addr e r hscan
    rw [hc]
    exact ⟨listGetD_set_ne _ _ _ (fun hc' => hj hc'.symm), List.length_set _ _ _⟩

/-- C10 witness: an access to address 0 with `s = 1, b = 0` (set index 0)
leaves set 1 unchanged. -/
theorem access_frame_effect_witness :
    (accessData 1 0 (initState 2 1) 0).cache.getD 1 []
        = (initState 2 1).cache.getD 1 [] ∧
      (accessData 1 0 (initState 2 1) 0).cache.length = (initState 2 1).cache.length :=
  access_frame_effect 1 0 (initState 2 1) 0 1 (by decide)

end CacheSim
